import Mathlib

/-!
Shallow embedding of the comparedocs-fast-research gateway and embedder
services (src/services/gateway/main.py, src/services/embedder/main.py).

Byte payloads are modelled as `List Nat`, timestamps as `Nat`, JSON floats
for scores and percentages as `ℚ`.  The SHA-256 digest and the PyPDF2 page
parser are external libraries; the model is parameterised over them: the
digest is an arbitrary function `List Nat → String` (the claims settled
here need only determinism, which any function has) and the parser is an
arbitrary `List Nat → Option Nat` (`none` = the library raised, i.e. the
body is not a well-formed PDF).
-/

namespace CompareDocs

/-- A row of the `documents` table
    (columns as created in `startup`, gateway main.py). -/
structure DocumentRow where
  id : String
  sha256 : String
  filename : String
  size : Nat
  page_count : Nat
  created_at : Nat
  status : String
  deriving DecidableEq, Repr

/-- One match record inside an engine result
    (`left_text`, `right_text`, `match_type`, `similarity_score`). -/
structure MatchRec where
  left_text : String
  right_text : String
  match_type : String
  similarity_score : ℚ
  deriving DecidableEq, Repr

/-- The JSON object a 200 response of the rust-comparator carries and the
    report template consumes: a match list plus the aggregate fields the
    template renders (`compliant_count`, percentages, ...). -/
structure EngineResult where
  «matches» : List MatchRec
  compliant_count : Nat
  non_compliant_count : Nat
  compliant_percentage : ℚ
  non_compliant_percentage : ℚ
  deriving DecidableEq, Repr

/-- A row of the `comparisons` table. -/
structure ComparisonRow where
  id : String
  left_doc_id : String
  right_doc_id : String
  status : String
  result : Option EngineResult
  created_at : Nat
  completed_at : Option Nat
  deriving DecidableEq, Repr

/-- One `ingest.pdf` message as published by `process_pdf_pages`. -/
structure IngestEvent where
  doc_id : String
  s3_uri : String
  sha256 : String
  deriving DecidableEq, Repr

/-- The externally visible state the gateway mutates: the two database
    tables, the set of S3 keys written, and the log of published
    `ingest.pdf` events. -/
structure GatewayState where
  documents : List DocumentRow
  comparisons : List ComparisonRow
  blobs : List String
  events : List IngestEvent
  deriving DecidableEq, Repr

/-- The body of a `DocumentResponse` (response model of `POST /upload`). -/
structure DocumentResponse where
  doc_id : String
  filename : String
  size : Nat
  sha256 : String
  page_count : Nat
  status : String
  created_at : Nat
  deriving DecidableEq, Repr

/-- Model of `get_pdf_page_count`: PyPDF2 parse wrapped in try/except, defaulting
    to 1 when the library raises (`except: return 1`). -/
def get_pdf_page_count (parsePdf : List Nat → Option Nat) (data : List Nat) : Nat :=
  (parsePdf data).getD 1

/-- The `DocumentResponse` built from a stored row on the dedup path of
    `upload_document` (lines 210-218 of gateway main.py). -/
def responseOfRow (row : DocumentRow) : DocumentResponse :=
  { doc_id := row.id
    filename := row.filename
    size := row.size
    sha256 := row.sha256
    page_count := row.page_count
    status := row.status
    created_at := row.created_at }

/-- Model of `put_object` on the content-addressed key: S3 overwrites in place, so
    the set of stored keys gains the key if absent. -/
def putBlob (blobs : List String) (key : String) : List String :=
  if key ∈ blobs then blobs else blobs ++ [key]

/-- Model of `upload_document` (POST /upload): hash the bytes, look the hash up in
    `documents`; if found return the stored row unchanged, else generate a
    fresh id, count pages, write the blob, insert the row with status
    "processing" and schedule the `ingest.pdf` publication.
    `freshId` stands for the `uuid.uuid4()` draw and `now` for
    `datetime.utcnow()`. -/
def upload_document (hash : List Nat → String) (parsePdf : List Nat → Option Nat)
    (st : GatewayState) (freshId : String) (now : Nat)
    (filename : String) (content : List Nat) : GatewayState × DocumentResponse :=
  match st.documents.find? (fun r => r.sha256 == hash content) with
  | some row => (st, responseOfRow row)
  | none =>
      ({ st with
          documents := st.documents ++
            [{ id := freshId, sha256 := hash content, filename := filename,
               size := content.length,
               page_count := get_pdf_page_count parsePdf content,
               created_at := now, status := "processing" }]
          blobs := putBlob st.blobs ("pdfs/" ++ hash content ++ ".pdf")
          events := st.events ++
            [{ doc_id := freshId,
               s3_uri := "s3://documents/" ++ ("pdfs/" ++ hash content ++ ".pdf"),
               sha256 := hash content }] },
       { doc_id := freshId, filename := filename, size := content.length,
         sha256 := hash content,
         page_count := get_pdf_page_count parsePdf content,
         status := "processing", created_at := now })

/-- Number of rows of `documents` carrying a given content hash. -/
def countDocs (st : GatewayState) (sha : String) : Nat :=
  st.documents.countP (fun r => r.sha256 == sha)

/-- Number of published `ingest.pdf` events carrying a given content hash. -/
def countEvents (st : GatewayState) (sha : String) : Nat :=
  st.events.countP (fun e => e.sha256 == sha)

/-- The possible outcomes of the single `httpx` POST to the engine in
    `compare_documents`: a 200 with a result body, a non-200 response,
    `httpx.TimeoutException`, `httpx.ConnectError`, or any other
    exception. -/
inductive EngineOutcome where
  | ok (result : EngineResult)
  | non200 (code : Nat) (text : String)
  | timeout
  | connectError
  | otherError (msg : String)
  deriving DecidableEq, Repr

/-- The side effects `compare_documents` performs, in program order:
    database writes, the single engine call, raising an `HTTPException`
    with a status code, and returning a body to the caller. -/
inductive Action where
  | insertComparison (row : ComparisonRow)
  | updateCompleted (cid : String) (result : EngineResult) (completed_at : Nat)
  | updateFailed (cid : String)
  | engineCall (left right : String)
  | raiseError (code : Nat) (detail : String)
  | respond (result : EngineResult)
  deriving DecidableEq, Repr

/-- The sequence of side effects of one `compare_documents` execution
    (POST /compare), as a function of the engine call's outcome.
    The row is inserted with status "processing" before the engine is
    invoked; a 200 leads to the completed-update and the result being
    returned; a non-200 raises an `HTTPException` inside the `try`, which
    the generic `except Exception` handler catches: it performs the
    failed-update and re-raises; timeout and connect errors perform the
    failed-update in their own handlers.  Exactly one engine call appears
    in every trace: no retry. -/
def compareTrace (cid left right : String) (created now : Nat)
    (outcome : EngineOutcome) : List Action :=
  [Action.insertComparison
      { id := cid, left_doc_id := left, right_doc_id := right,
        status := "processing", result := none,
        created_at := created, completed_at := none },
   Action.engineCall left right] ++
  match outcome with
  | .ok result =>
      [Action.updateCompleted cid result now, Action.respond result]
  | .non200 _ text =>
      [Action.updateFailed cid,
       Action.raiseError 500 ("Comparison error: 500: Comparison failed: " ++ text)]
  | .timeout =>
      [Action.updateFailed cid,
       Action.raiseError 500 "Comparison timed out after 5 minutes"]
  | .connectError =>
      [Action.updateFailed cid,
       Action.raiseError 500 "Cannot connect to comparison service. Is rust-comparator running?"]
  | .otherError msg =>
      [Action.updateFailed cid,
       Action.raiseError 500 ("Comparison error: " ++ msg)]

/-- Effect of one action on the stored state.  The two UPDATE statements
    touch exactly the rows whose `id` matches; the failed-update sets only
    `status` (`UPDATE comparisons SET status = %s WHERE id = %s`). -/
def applyAction (st : GatewayState) : Action → GatewayState
  | .insertComparison row => { st with comparisons := st.comparisons ++ [row] }
  | .updateCompleted cid result completed_at =>
      { st with comparisons := st.comparisons.map (fun c =>
          if c.id = cid then
            { c with status := "completed", result := some result,
                     completed_at := some completed_at }
          else c) }
  | .updateFailed cid =>
      { st with comparisons := st.comparisons.map (fun c =>
          if c.id = cid then { c with status := "failed" } else c) }
  | .engineCall _ _ => st
  | .raiseError _ _ => st
  | .respond _ => st

/-- Fold a trace of side effects over the state. -/
def applyActions (st : GatewayState) (tr : List Action) : GatewayState :=
  tr.foldl applyAction st

/-- What `compare_documents` hands the HTTP layer: the engine's result
    object on the 200 path, otherwise the raised `HTTPException`'s status
    code and detail. -/
def compareReturn (outcome : EngineOutcome) : Except (Nat × String) EngineResult :=
  match outcome with
  | .ok result => .ok result
  | .non200 _ text => .error (500, "Comparison error: 500: Comparison failed: " ++ text)
  | .timeout => .error (500, "Comparison timed out after 5 minutes")
  | .connectError => .error (500, "Cannot connect to comparison service. Is rust-comparator running?")
  | .otherError msg => .error (500, "Comparison error: " ++ msg)

/-- Model of `compare_documents` as a state transformer: the state after its trace
    of side effects, paired with what the caller receives. -/
def compare_documents (st : GatewayState) (cid left right : String)
    (created now : Nat) (outcome : EngineOutcome) :
    GatewayState × Except (Nat × String) EngineResult :=
  (applyActions st (compareTrace cid left right created now outcome),
   compareReturn outcome)

/-- Per-match compliance exactly as the report template classifies a
    match: COMPLIANT iff `match_type == 'exact' or match_type ==
    'similar'` (gateway main.py, report fallback template). -/
def matchCompliant (m : MatchRec) : Bool :=
  m.match_type == "exact" || m.match_type == "similar"

/-- Modelled from the spec: the aggregate classification (`classify` in
    spec section 4.4).  The counts and percentages the report template
    renders are computed by the rust-comparator service, whose source is
    not under src/; the gateway only stores and substitutes them.  Counts
    split the matches by `match_type ∈ {exact, similar}`; percentages are
    `100 * count / total` with both percentages `0.0` when the match list
    is empty. -/
def classify (ms : List MatchRec) : EngineResult :=
  let c := (ms.filter matchCompliant).length
  let n := (ms.filter (fun m => !(matchCompliant m))).length
  let total := c + n
  { «matches» := ms
    compliant_count := c
    non_compliant_count := n
    compliant_percentage := if total = 0 then 0 else 100 * (c : ℚ) / (total : ℚ)
    non_compliant_percentage := if total = 0 then 0 else 100 * (n : ℚ) / (total : ℚ) }

/-- One chunk of a `page.chunked` message body. -/
structure Chunk where
  text : String
  deriving DecidableEq, Repr

/-- A `page.chunked` message as consumed by the embedder service. -/
structure PageChunkedMsg where
  doc_id : String
  page_no : Nat
  chunks : List Chunk
  deriving DecidableEq, Repr

/-- The embedder's observable effects: it persists nothing ("In
    production, store these in pgvector" — embedder main.py), so its state
    is the log of `model.encode` invocations, each recording the list of
    chunk texts encoded. -/
structure EmbedderState where
  encodeCalls : List (List String)
  deriving DecidableEq, Repr

/-- Model of `process_chunks` (embedder main.py): decode the message, extract the
    chunk texts, and call `model.encode(texts)` whenever the text list is
    non-empty.  No deduplication of any kind is performed before
    encoding. -/
def process_chunks (st : EmbedderState) (msg : PageChunkedMsg) : EmbedderState :=
  let texts := msg.chunks.map (fun c => c.text)
  if texts.isEmpty then st
  else { st with encodeCalls := st.encodeCalls ++ [texts] }

/-! ## Interleaved execution

`upload_document` suspends at each await (database SELECT, S3 put,
database INSERT), so concurrent uploads interleave at those points.  A
caller is a small state machine over those suspension points; the INSERT
step models the store-side `UNIQUE` constraint on `sha256`: when a row
with the same hash already exists the INSERT raises
`UniqueViolation`, which `upload_document`'s generic `except` turns into
an HTTP 500 — there is no conflict re-read. -/

/-- Per-caller inputs of one in-flight upload: the request body, the
    `uuid4` draw this caller would use, the client filename and the
    caller's clock reading. -/
structure CallerParams where
  content : List Nat
  freshId : String
  filename : String
  now : Nat
  deriving DecidableEq, Repr

/-- Program counter of one in-flight `upload_document` request, one state
    per suspension point. -/
inductive CallerPC where
  | start
  | create
  | inserting
  | doneOk (resp : DocumentResponse)
  | doneErr (detail : String)
  deriving DecidableEq, Repr

/-- One atomic step of an in-flight `upload_document` request: the dedup
    SELECT (from `start`), the S3 put (from `create`), or the INSERT plus
    the deferred event publication (from `inserting`).  The INSERT
    re-checks the hash because the store enforces `UNIQUE(sha256)` at
    write time; a violation surfaces as the generic 500. -/
def ingestStep (hash : List Nat → String) (parsePdf : List Nat → Option Nat)
    (p : CallerParams) (st : GatewayState) (pc : CallerPC) : GatewayState × CallerPC :=
  match pc with
  | .start =>
      match st.documents.find? (fun r => r.sha256 == hash p.content) with
      | some row => (st, .doneOk (responseOfRow row))
      | none => (st, .create)
  | .create =>
      ({ st with blobs := putBlob st.blobs ("pdfs/" ++ hash p.content ++ ".pdf") },
       .inserting)
  | .inserting =>
      if st.documents.any (fun r => r.sha256 == hash p.content) then
        (st, .doneErr "Upload failed: duplicate key value violates unique constraint")
      else
        ({ st with
            documents := st.documents ++
              [{ id := p.freshId, sha256 := hash p.content, filename := p.filename,
                 size := p.content.length,
                 page_count := get_pdf_page_count parsePdf p.content,
                 created_at := p.now, status := "processing" }]
            events := st.events ++
              [{ doc_id := p.freshId,
                 s3_uri := "s3://documents/pdfs/" ++ hash p.content ++ ".pdf",
                 sha256 := hash p.content }] },
         .doneOk { doc_id := p.freshId, filename := p.filename,
                   size := p.content.length, sha256 := hash p.content,
                   page_count := get_pdf_page_count parsePdf p.content,
                   status := "processing", created_at := p.now })
  | .doneOk r => (st, .doneOk r)
  | .doneErr e => (st, .doneErr e)

/-- Joint state of two concurrent upload requests A and B over the shared
    store. -/
structure TwoState where
  gs : GatewayState
  pcA : CallerPC
  pcB : CallerPC
  deriving DecidableEq, Repr

/-- Scheduler step: run one atomic step of caller A (`true`) or caller B
    (`false`). -/
def sysStep (hash : List Nat → String) (parsePdf : List Nat → Option Nat)
    (pA pB : CallerParams) (s : TwoState) (who : Bool) : TwoState :=
  if who then
    let r := ingestStep hash parsePdf pA s.gs s.pcA
    { s with gs := r.1, pcA := r.2 }
  else
    let r := ingestStep hash parsePdf pB s.gs s.pcB
    { s with gs := r.1, pcB := r.2 }

/-- Run the two-caller system under an arbitrary interleaving. -/
def runSchedule (hash : List Nat → String) (parsePdf : List Nat → Option Nat)
    (pA pB : CallerParams) (s : TwoState) (sched : List Bool) : TwoState :=
  sched.foldl (sysStep hash parsePdf pA pB) s

/-! ## The gateway's operations as a transition system

Every endpoint of the service, as one state transition each; the read
endpoints (`GET /documents`, `GET /comparisons/...`, `/health`) never
write. -/

/-- One invocation of a gateway endpoint. -/
inductive Op where
  | upload (freshId : String) (now : Nat) (filename : String) (content : List Nat)
  | compare (cid left right : String) (created now : Nat) (outcome : EngineOutcome)
  | getComparison (id : String)
  | getReport (id : String)
  | listDocuments
  | health
  deriving Repr

/-- State transition of one endpoint invocation. -/
def applyOp (hash : List Nat → String) (parsePdf : List Nat → Option Nat)
    (st : GatewayState) : Op → GatewayState
  | .upload freshId now filename content =>
      (upload_document hash parsePdf st freshId now filename content).1
  | .compare cid left right created now outcome =>
      (compare_documents st cid left right created now outcome).1
  | .getComparison _ => st
  | .getReport _ => st
  | .listDocuments => st
  | .health => st

/-- Run a sequence of endpoint invocations. -/
def applyOps (hash : List Nat → String) (parsePdf : List Nat → Option Nat)
    (st : GatewayState) (ops : List Op) : GatewayState :=
  ops.foldl (applyOp hash parsePdf) st

/-- Whether an operation's server-generated comparison id is fresh for the
    state it runs in — `uuid.uuid4()` never collides with a stored id. -/
def opFresh (st : GatewayState) : Op → Bool
  | .compare cid _ _ _ _ _ => st.comparisons.all (fun c => c.id != cid)
  | _ => true

/-- Every comparison id drawn along a run is fresh at the state where it
    is drawn. -/
def freshCids (hash : List Nat → String) (parsePdf : List Nat → Option Nat) :
    GatewayState → List Op → Bool
  | _, [] => true
  | st, op :: ops =>
      opFresh st op && freshCids hash parsePdf (applyOp hash parsePdf st op) ops

/-! ## Generic list lemmas -/

/-- A list with at most one element satisfying `p` has all its
    `p`-satisfying members equal. -/
lemma countP_le_one_unique {α : Type} (p : α → Bool) :
    ∀ (l : List α), l.countP p ≤ 1 →
      ∀ x ∈ l, ∀ y ∈ l, p x = true → p y = true → x = y := by
  intro l
  induction l with
  | nil => intro _ x hx; exact absurd hx (List.not_mem_nil x)
  | cons a t ih =>
      intro hle x hx y hy px py
      by_cases pa : p a = true
      · have ht : t.countP p = 0 := by
          rw [List.countP_cons_of_pos p t pa] at hle
          omega
        have hnone : ∀ z ∈ t, ¬ p z = true := List.countP_eq_zero.mp ht
        have hxa : x = a := by
          rcases List.mem_cons.mp hx with h | h
          · exact h
          · exact absurd px (hnone x h)
        have hya : y = a := by
          rcases List.mem_cons.mp hy with h | h
          · exact h
          · exact absurd py (hnone y h)
        rw [hxa, hya]
      · have hle' : t.countP p ≤ 1 := by
          rw [List.countP_cons_of_neg p t pa] at hle
          exact hle
        have hxt : x ∈ t := by
          rcases List.mem_cons.mp hx with h | h
          · rw [h] at px; exact absurd px pa
          · exact h
        have hyt : y ∈ t := by
          rcases List.mem_cons.mp hy with h | h
          · rw [h] at py; exact absurd py pa
          · exact h
        exact ih hle' x hxt y hyt px py

/-- The elements satisfying `p` and those not satisfying it partition a
    list. -/
lemma countP_not_add {α : Type} (p : α → Bool) :
    ∀ (l : List α), l.countP p + l.countP (fun a => ! p a) = l.length := by
  intro l
  induction l with
  | nil => rfl
  | cons a t ih =>
      rcases ha : p a with _ | _
      · rw [List.countP_cons_of_neg p t (by simp [ha]),
            List.countP_cons_of_pos (fun a => ! p a) t (by simp [ha]),
            List.length_cons]
        omega
      · rw [List.countP_cons_of_pos p t ha,
            List.countP_cons_of_neg (fun a => ! p a) t (by simp [ha]),
            List.length_cons]
        omega

/-- Appending a satisfying element to a list with no satisfying element
    makes `find?` return exactly that element. -/
lemma find?_append_singleton {α : Type} (p : α → Bool) (a : α) :
    ∀ (l : List α), l.find? p = none → p a = true →
      (l ++ [a]).find? p = some a := by
  intro l
  induction l with
  | nil => intro _ pa; simpa [List.find?] using List.find?_cons_of_pos ([] : List α) pa
  | cons x t ih =>
      intro hnone pa
      have hx : ¬ p x = true := by
        intro hpx
        rw [List.find?_cons_of_pos t hpx] at hnone
        exact Option.noConfusion hnone
      have ht : t.find? p = none := by
        rw [List.find?_cons_of_neg t hx] at hnone
        exact hnone
      rw [List.cons_append, List.find?_cons_of_neg (t ++ [a]) hx]
      exact ih ht pa

/-! ## C5 — report classification -/

/-- C5: classification counts a match as compliant iff its
    `match_type` is `exact` or `similar` and as non-compliant otherwise;
    each percentage is `100 * count / total` with
    `total = compliant_count + non_compliant_count`, and both
    percentages are `0.0` for the empty match list. -/
theorem classify_counts_and_percentages (ms : List MatchRec) :
    (∀ m ∈ ms, matchCompliant m = true ↔
        (m.match_type = "exact" ∨ m.match_type = "similar")) ∧
    (classify ms).compliant_count
      = ms.countP (fun m => decide (m.match_type = "exact" ∨ m.match_type = "similar")) ∧
    (classify ms).non_compliant_count
      = ms.countP (fun m => decide (¬ (m.match_type = "exact" ∨ m.match_type = "similar"))) ∧
    (classify ms).compliant_count + (classify ms).non_compliant_count = ms.length ∧
    (classify ms).compliant_percentage
      = (if (classify ms).compliant_count + (classify ms).non_compliant_count = 0 then 0
         else 100 * ((classify ms).compliant_count : ℚ)
              / (((classify ms).compliant_count + (classify ms).non_compliant_count : Nat) : ℚ)) ∧
    (classify ms).non_compliant_percentage
      = (if (classify ms).compliant_count + (classify ms).non_compliant_count = 0 then 0
         else 100 * ((classify ms).non_compliant_count : ℚ)
              / (((classify ms).compliant_count + (classify ms).non_compliant_count : Nat) : ℚ)) ∧
    (ms = [] → (classify ms).compliant_percentage = 0
             ∧ (classify ms).non_compliant_percentage = 0) := by
  have hiff : ∀ m : MatchRec, matchCompliant m = true ↔
      (m.match_type = "exact" ∨ m.match_type = "similar") := by
    intro m
    simp [matchCompliant]
  have hpred : (fun m => decide (m.match_type = "exact" ∨ m.match_type = "similar"))
      = matchCompliant := by
    funext m
    rcases hb : matchCompliant m with _ | _
    · refine decide_eq_false fun hc => ?_
      have := (hiff m).mpr hc
      rw [hb] at this
      exact Bool.noConfusion this
    · exact decide_eq_true ((hiff m).mp hb)
  have hnpred : (fun m => decide (¬ (m.match_type = "exact" ∨ m.match_type = "similar")))
      = (fun m => ! matchCompliant m) := by
    funext m
    rw [decide_not, ← hpred]
  refine ⟨fun m _ => hiff m, ?_, ?_, ?_, ?_, ?_, ?_⟩
  · rw [hpred]
    simp [classify, List.countP_eq_length_filter]
  · rw [hnpred]
    simp [classify, List.countP_eq_length_filter]
  · have := countP_not_add matchCompliant ms
    simpa [classify, List.countP_eq_length_filter] using this
  · simp [classify]
  · simp [classify]
  · intro h
    simp [classify, h]

/-! ## C7 — embedder redelivery -/

/-- A concrete `page.chunked` message with one chunk. -/
def msg0 : PageChunkedMsg := { doc_id := "d", page_no := 0, chunks := [{ text := "a" }] }

/-- The embedder before any message. -/
def emb0 : EmbedderState := { encodeCalls := [] }

/-- C7 counterexample: processing the same `page.chunked` message a second
    time is not a no-op — `model.encode` runs again on the same texts, so
    double processing differs from single processing. -/
theorem process_chunks_reprocesses_cex :
    process_chunks (process_chunks emb0 msg0) msg0 ≠ process_chunks emb0 msg0 ∧
    (process_chunks (process_chunks emb0 msg0) msg0).encodeCalls = [["a"], ["a"]] ∧
    (process_chunks emb0 msg0).encodeCalls = [["a"]] := by
  refine ⟨?_, by decide, by decide⟩
  intro h
  have := congrArg (fun s => s.encodeCalls) h
  simp [process_chunks, emb0, msg0] at this

/-- C7 amended: the consumer performs no de-duplication keyed on
    `(doc_id, page_no)` (or anything else): redelivering a `page.chunked`
    message with a non-empty chunk list re-invokes the embedding
    computation on the same texts, so processing twice is not the same as
    processing once; only because no embeddings are persisted is the
    stored state unaffected. -/
theorem process_chunks_redoes_work (st : EmbedderState) (m : PageChunkedMsg)
    (hne : m.chunks ≠ []) :
    (process_chunks (process_chunks st m) m).encodeCalls
      = st.encodeCalls ++ [m.chunks.map (fun c => c.text), m.chunks.map (fun c => c.text)] ∧
    process_chunks (process_chunks st m) m ≠ process_chunks st m := by
  have htexts : (m.chunks.map (fun c => c.text)).isEmpty = false := by
    rcases hh : m.chunks with _ | ⟨a, t⟩
    · exact absurd hh hne
    · simp [hh]
  constructor
  · simp [process_chunks, htexts]
  · intro h
    have := congrArg (fun s => s.encodeCalls.length) h
    simp [process_chunks, htexts] at this

/-- Witness for `process_chunks_redoes_work` at a concrete message. -/
theorem process_chunks_redoes_work_witness :
    msg0.chunks ≠ [] ∧
    ((process_chunks (process_chunks emb0 msg0) msg0).encodeCalls
      = emb0.encodeCalls ++ [msg0.chunks.map (fun c => c.text), msg0.chunks.map (fun c => c.text)] ∧
     process_chunks (process_chunks emb0 msg0) msg0 ≠ process_chunks emb0 msg0) :=
  ⟨by decide, process_chunks_redoes_work emb0 msg0 (by decide)⟩

/-! ## Concrete instances used by witnesses and counterexamples -/

/-- A concrete stand-in for the SHA-256 digest (the settled properties
    need only that the digest is a function of the bytes). -/
def hashC : List Nat → String := fun _ => "h256"

/-- A concrete PDF parser that reads every body as three pages. -/
def parseC : List Nat → Option Nat := fun _ => some 3

/-- A concrete parser for which every body is malformed
    (PyPDF2 raises). -/
def parseBad : List Nat → Option Nat := fun _ => none

/-- The empty gateway store. -/
def gw0 : GatewayState :=
  { documents := [], comparisons := [], blobs := [], events := [] }

/-! ## Unfolding lemmas for `upload_document` -/

/-- The dedup branch: when a stored row carries the hash of the bytes,
    `upload_document` returns it and leaves the state untouched. -/
lemma upload_document_found (hash : List Nat → String)
    (parsePdf : List Nat → Option Nat) (st : GatewayState)
    (freshId : String) (now : Nat) (filename : String) (content : List Nat)
    (row : DocumentRow)
    (h : st.documents.find? (fun r => r.sha256 == hash content) = some row) :
    upload_document hash parsePdf st freshId now filename content
      = (st, responseOfRow row) := by
  unfold upload_document
  rw [h]

/-- The creation branch: when no stored row carries the hash,
    `upload_document` appends one new row, one blob key and one event. -/
lemma upload_document_new (hash : List Nat → String)
    (parsePdf : List Nat → Option Nat) (st : GatewayState)
    (freshId : String) (now : Nat) (filename : String) (content : List Nat)
    (h : st.documents.find? (fun r => r.sha256 == hash content) = none) :
    upload_document hash parsePdf st freshId now filename content
      = ({ st with
            documents := st.documents ++
              [{ id := freshId, sha256 := hash content, filename := filename,
                 size := content.length,
                 page_count := get_pdf_page_count parsePdf content,
                 created_at := now, status := "processing" }]
            blobs := putBlob st.blobs ("pdfs/" ++ hash content ++ ".pdf")
            events := st.events ++
              [{ doc_id := freshId,
                 s3_uri := "s3://documents/" ++ ("pdfs/" ++ hash content ++ ".pdf"),
                 sha256 := hash content }] },
         { doc_id := freshId, filename := filename, size := content.length,
           sha256 := hash content,
           page_count := get_pdf_page_count parsePdf content,
           status := "processing", created_at := now }) := by
  unfold upload_document
  rw [h]

/-! ## C1 — dedup idempotence of sequential identical uploads -/

/-- C1: uploading the same bytes a second time returns the first call's
    `doc_id` and changes nothing — no row, blob or event is added (so no
    new id is consumed); afterwards exactly one `documents` row and at
    most one `ingest.pdf` event carry that content hash.  The hypotheses
    are the store's standing invariants: `UNIQUE(sha256)` and one
    publication per created row. -/
theorem upload_document_idempotent (hash : List Nat → String)
    (parsePdf : List Nat → Option Nat) (st0 : GatewayState)
    (id1 id2 : String) (t1 t2 : Nat) (f1 f2 : String) (content : List Nat)
    (hdocs : countDocs st0 (hash content) ≤ 1)
    (hev : countEvents st0 (hash content) ≤ countDocs st0 (hash content)) :
    (upload_document hash parsePdf
        (upload_document hash parsePdf st0 id1 t1 f1 content).1 id2 t2 f2 content).2.doc_id
      = (upload_document hash parsePdf st0 id1 t1 f1 content).2.doc_id ∧
    (upload_document hash parsePdf
        (upload_document hash parsePdf st0 id1 t1 f1 content).1 id2 t2 f2 content).1
      = (upload_document hash parsePdf st0 id1 t1 f1 content).1 ∧
    countDocs (upload_document hash parsePdf st0 id1 t1 f1 content).1 (hash content) = 1 ∧
    countEvents (upload_document hash parsePdf st0 id1 t1 f1 content).1 (hash content) ≤ 1 := by
  cases h : st0.documents.find? (fun r => r.sha256 == hash content) with
  | some row =>
      have h1 := upload_document_found hash parsePdf st0 id1 t1 f1 content row h
      have h2 := upload_document_found hash parsePdf st0 id2 t2 f2 content row h
      have hone : countDocs st0 (hash content) = 1 := by
        have hpos : 0 < countDocs st0 (hash content) :=
          List.countP_pos_iff.mpr
            ⟨row, List.mem_of_find?_eq_some h, by simpa using List.find?_some h⟩
        omega
      rw [h1, h2]
      exact ⟨rfl, rfl, hone, le_trans hev (le_of_eq hone)⟩
  | none =>
      have hzero : countDocs st0 (hash content) = 0 := by
        apply List.countP_eq_zero.mpr
        intro r hr
        exact List.find?_eq_none.mp h r hr
      have h1 := upload_document_new hash parsePdf st0 id1 t1 f1 content h
      rw [h1]
      have hfind2 : (st0.documents ++
            [({ id := id1, sha256 := hash content, filename := f1,
                size := content.length,
                page_count := get_pdf_page_count parsePdf content,
                created_at := t1, status := "processing" } : DocumentRow)]).find?
          (fun r => r.sha256 == hash content)
          = some ({ id := id1, sha256 := hash content, filename := f1,
                    size := content.length,
                    page_count := get_pdf_page_count parsePdf content,
                    created_at := t1, status := "processing" } : DocumentRow) :=
        find?_append_singleton _ _ st0.documents h (by simp)
      have h2 := upload_document_found hash parsePdf
        (upload_document hash parsePdf st0 id1 t1 f1 content).1 id2 t2 f2 content _
        (by rw [h1]; exact hfind2)
      rw [h1] at h2
      rw [h2]
      refine ⟨rfl, rfl, ?_, ?_⟩
      · simp only [countDocs, List.countP_append]
        rw [show st0.documents.countP (fun r => r.sha256 == hash content) = 0 from hzero]
        simp
      · simp only [countEvents, List.countP_append]
        have hev0 : countEvents st0 (hash content) = 0 := by omega
        rw [show st0.events.countP (fun e => e.sha256 == hash content) = 0 from hev0]
        simp

/-- Witness for `upload_document_idempotent`: a concrete double upload of
    the same three bytes into an empty store. -/
theorem upload_document_idempotent_witness :
    (countDocs gw0 (hashC [1, 2, 3]) ≤ 1 ∧
     countEvents gw0 (hashC [1, 2, 3]) ≤ countDocs gw0 (hashC [1, 2, 3])) ∧
    ((upload_document hashC parseC
        (upload_document hashC parseC gw0 "id-1" 5 "a.pdf" [1, 2, 3]).1 "id-2" 9 "b.pdf" [1, 2, 3]).2.doc_id
      = (upload_document hashC parseC gw0 "id-1" 5 "a.pdf" [1, 2, 3]).2.doc_id ∧
    (upload_document hashC parseC
        (upload_document hashC parseC gw0 "id-1" 5 "a.pdf" [1, 2, 3]).1 "id-2" 9 "b.pdf" [1, 2, 3]).1
      = (upload_document hashC parseC gw0 "id-1" 5 "a.pdf" [1, 2, 3]).1 ∧
    countDocs (upload_document hashC parseC gw0 "id-1" 5 "a.pdf" [1, 2, 3]).1 (hashC [1, 2, 3]) = 1 ∧
    countEvents (upload_document hashC parseC gw0 "id-1" 5 "a.pdf" [1, 2, 3]).1 (hashC [1, 2, 3]) ≤ 1) :=
  ⟨⟨by decide, by decide⟩,
   upload_document_idempotent hashC parseC gw0 "id-1" "id-2" 5 9 "a.pdf" "b.pdf" [1, 2, 3]
     (by decide) (by decide)⟩

/-! ## C9 — dedup responses carry the stored row verbatim -/

/-- C9: when the uploaded bytes already have a stored row, the response is
    built from that row alone — stored filename, size, page count, status
    and creation time — and the state is untouched; the new request's
    filename `f2`, clock reading `t2` and id draw `id2` are arbitrary and
    ignored. -/
theorem upload_document_dedup_returns_stored (hash : List Nat → String)
    (parsePdf : List Nat → Option Nat) (st : GatewayState) (d : DocumentRow)
    (id2 : String) (t2 : Nat) (f2 : String) (content : List Nat)
    (hmem : d ∈ st.documents) (hsha : d.sha256 = hash content)
    (huniq : countDocs st (hash content) ≤ 1) :
    upload_document hash parsePdf st id2 t2 f2 content = (st, responseOfRow d) := by
  have hd : (fun r => r.sha256 == hash content) d = true := by simp [hsha]
  cases h : st.documents.find? (fun r => r.sha256 == hash content) with
  | none => exact absurd hd (List.find?_eq_none.mp h d hmem)
  | some row =>
      have hrow : row = d :=
        countP_le_one_unique _ st.documents huniq row
          (List.mem_of_find?_eq_some h) d hmem
          (by simpa using List.find?_some h) hd
      rw [upload_document_found hash parsePdf st id2 t2 f2 content row h, hrow]

/-- A stored document row used by witnesses. -/
def docRow0 : DocumentRow :=
  { id := "id-0", sha256 := "h256", filename := "orig.pdf", size := 44,
    page_count := 9, created_at := 3, status := "processing" }

/-- A gateway store holding `docRow0` and its published event. -/
def gw1 : GatewayState :=
  { documents := [docRow0], comparisons := [], blobs := ["pdfs/h256.pdf"],
    events := [{ doc_id := "id-0", s3_uri := "s3://documents/pdfs/h256.pdf",
                 sha256 := "h256" }] }

/-- Witness for `upload_document_dedup_returns_stored`: re-uploading the
    bytes of `docRow0` under a different filename returns the stored row's
    fields. -/
theorem upload_document_dedup_returns_stored_witness :
    (docRow0 ∈ gw1.documents ∧ docRow0.sha256 = hashC [1, 2, 3] ∧
     countDocs gw1 (hashC [1, 2, 3]) ≤ 1) ∧
    upload_document hashC parseC gw1 "id-9" 77 "renamed.pdf" [1, 2, 3]
      = (gw1, responseOfRow docRow0) :=
  ⟨⟨by decide, by decide, by decide⟩,
   upload_document_dedup_returns_stored hashC parseC gw1 docRow0 "id-9" 77
     "renamed.pdf" [1, 2, 3] (by decide) (by decide) (by decide)⟩

/-! ## C8 — malformed uploads are not rejected -/

/-- C8 counterexample: a body every PDF parser rejects is nevertheless
    accepted — the upload responds with status `processing` and
    `page_count = 1` (the `except: return 1` fallback) and produces a
    document row, a blob and an event, instead of a 4xx rejection with no
    side effects. -/
theorem upload_document_malformed_accepted_cex :
    (upload_document hashC parseBad gw0 "id-1" 7 "bad.bin" [9, 9]).1.documents ≠ gw0.documents ∧
    (upload_document hashC parseBad gw0 "id-1" 7 "bad.bin" [9, 9]).2.status = "processing" ∧
    (upload_document hashC parseBad gw0 "id-1" 7 "bad.bin" [9, 9]).2.page_count = 1 ∧
    (upload_document hashC parseBad gw0 "id-1" 7 "bad.bin" [9, 9]).1.blobs ≠ [] ∧
    (upload_document hashC parseBad gw0 "id-1" 7 "bad.bin" [9, 9]).1.events ≠ [] := by
  refine ⟨?_, by decide, by decide, ?_, ?_⟩ <;> decide

/-- C8 amended: an upload whose body PyPDF2 cannot parse is accepted like
    any other new upload: `get_pdf_page_count` falls back to 1, the
    response has status `processing`, and a document row, a blob and an
    event are produced; no client error is returned (the only error path
    of `upload_document` is the generic 500 on infrastructure
    exceptions). -/
theorem upload_document_malformed_accepted (hash : List Nat → String)
    (parsePdf : List Nat → Option Nat) (st : GatewayState)
    (freshId : String) (now : Nat) (filename : String) (content : List Nat)
    (hmal : parsePdf content = none)
    (hnew : st.documents.find? (fun r => r.sha256 == hash content) = none) :
    (upload_document hash parsePdf st freshId now filename content).2.status = "processing" ∧
    (upload_document hash parsePdf st freshId now filename content).2.page_count = 1 ∧
    (upload_document hash parsePdf st freshId now filename content).1.documents
      = st.documents ++
        [{ id := freshId, sha256 := hash content, filename := filename,
           size := content.length, page_count := 1,
           created_at := now, status := "processing" }] ∧
    (upload_document hash parsePdf st freshId now filename content).1.blobs
      = putBlob st.blobs ("pdfs/" ++ hash content ++ ".pdf") ∧
    (upload_document hash parsePdf st freshId now filename content).1.events
      = st.events ++
        [{ doc_id := freshId,
           s3_uri := "s3://documents/" ++ ("pdfs/" ++ hash content ++ ".pdf"),
           sha256 := hash content }] := by
  have hpc : get_pdf_page_count parsePdf content = 1 := by
    simp [get_pdf_page_count, hmal]
  rw [upload_document_new hash parsePdf st freshId now filename content hnew]
  simp [hpc]

/-- Witness for `upload_document_malformed_accepted` at concrete malformed
    bytes. -/
theorem upload_document_malformed_accepted_witness :
    (parseBad [9, 9] = none ∧
     gw0.documents.find? (fun r => r.sha256 == hashC [9, 9]) = none) ∧
    ((upload_document hashC parseBad gw0 "id-1" 7 "bad.bin" [9, 9]).2.status = "processing" ∧
     (upload_document hashC parseBad gw0 "id-1" 7 "bad.bin" [9, 9]).2.page_count = 1 ∧
     (upload_document hashC parseBad gw0 "id-1" 7 "bad.bin" [9, 9]).1.documents
       = gw0.documents ++
         [{ id := "id-1", sha256 := hashC [9, 9], filename := "bad.bin",
            size := ([9, 9] : List Nat).length, page_count := 1,
            created_at := 7, status := "processing" }] ∧
     (upload_document hashC parseBad gw0 "id-1" 7 "bad.bin" [9, 9]).1.blobs
       = putBlob gw0.blobs ("pdfs/" ++ hashC [9, 9] ++ ".pdf") ∧
     (upload_document hashC parseBad gw0 "id-1" 7 "bad.bin" [9, 9]).1.events
       = gw0.events ++
         [{ doc_id := "id-1",
            s3_uri := "s3://documents/" ++ ("pdfs/" ++ hashC [9, 9] ++ ".pdf"),
            sha256 := hashC [9, 9] }]) :=
  ⟨⟨rfl, by decide⟩,
   upload_document_malformed_accepted hashC parseBad gw0 "id-1" 7 "bad.bin" [9, 9]
     rfl (by decide)⟩

/-! ## Compare path: state-shape lemmas -/

/-- Whether the engine call came back 200. -/
def EngineOutcome.isOk : EngineOutcome → Bool
  | .ok _ => true
  | _ => false

/-- Whether an action is the engine RPC. -/
def isEngineCall : Action → Bool
  | .engineCall _ _ => true
  | _ => false

/-- The freshly inserted `processing` row of one compare execution. -/
def procRow (cid left right : String) (created : Nat) : ComparisonRow :=
  { id := cid, left_doc_id := left, right_doc_id := right,
    status := "processing", result := none,
    created_at := created, completed_at := none }

/-- On every failing outcome the state effect is: insert the `processing`
    row, then set `status = "failed"` on the rows with this id. -/
lemma compare_comparisons_failed (st : GatewayState) (cid l r : String)
    (created now : Nat) (outcome : EngineOutcome)
    (hfail : outcome.isOk = false) :
    (compare_documents st cid l r created now outcome).1.comparisons
      = (st.comparisons ++ [procRow cid l r created]).map
          (fun c => if c.id = cid then { c with status := "failed" } else c) := by
  cases outcome with
  | ok res => exact absurd hfail (by simp [EngineOutcome.isOk])
  | non200 code text => rfl
  | timeout => rfl
  | connectError => rfl
  | otherError msg => rfl

/-- On the 200 outcome the state effect is: insert the `processing` row,
    then set the terminal completed fields on the rows with this id. -/
lemma compare_comparisons_completed (st : GatewayState) (cid l r : String)
    (created now : Nat) (res : EngineResult) :
    (compare_documents st cid l r created now (EngineOutcome.ok res)).1.comparisons
      = (st.comparisons ++ [procRow cid l r created]).map
          (fun c => if c.id = cid then
              { c with status := "completed", result := some res,
                       completed_at := some now }
            else c) := rfl

/-- A row whose id differs survives an id-keyed UPDATE unchanged. -/
lemma mem_map_update_of_ne {l : List ComparisonRow} {c : ComparisonRow}
    (hc : c ∈ l) {cid : String} (hne : ¬ c.id = cid)
    (f : ComparisonRow → ComparisonRow) :
    c ∈ l.map (fun x => if x.id = cid then f x else x) := by
  have : (fun x => if x.id = cid then f x else x) c = c := by
    simp [hne]
  rw [← this]
  exact List.mem_map_of_mem _ hc

/-- Every row after an id-keyed UPDATE is either an untouched row with a
    different id or the image of a row with the id. -/
lemma mem_map_update_elim {l : List ComparisonRow} {cid : String}
    {f : ComparisonRow → ComparisonRow} {c : ComparisonRow}
    (h : c ∈ l.map (fun x => if x.id = cid then f x else x)) :
    (∃ x ∈ l, ¬ x.id = cid ∧ c = x) ∨ (∃ x ∈ l, x.id = cid ∧ c = f x) := by
  rcases List.mem_map.mp h with ⟨x, hx, hxc⟩
  by_cases hid : x.id = cid
  · right
    exact ⟨x, hx, hid, by rw [← hxc]; simp [hid]⟩
  · left
    exact ⟨x, hx, hid, by rw [← hxc]; simp [hid]⟩

/-! ## C2 — compare failure path -/

/-- C2: on any failing engine outcome — timeout, connection failure,
    non-200, or any other exception — the comparison row is persisted with
    status `failed`, no result and no `completed_at`; the failed-update
    appears in the trace strictly before the raised error; the caller
    receives an error; and the single engine call in the trace shows no
    retry. -/
theorem compare_documents_failure_path (st : GatewayState) (cid l r : String)
    (created now : Nat) (outcome : EngineOutcome)
    (hfail : outcome.isOk = false)
    (hfresh : ∀ c ∈ st.comparisons, ¬ c.id = cid) :
    (∃ c ∈ (compare_documents st cid l r created now outcome).1.comparisons,
        c.id = cid ∧ c.status = "failed" ∧ c.result = none ∧ c.completed_at = none) ∧
    (∀ c ∈ (compare_documents st cid l r created now outcome).1.comparisons,
        c.id = cid → c.status = "failed" ∧ c.result = none ∧ c.completed_at = none) ∧
    (∃ i j, i < j ∧
        (compareTrace cid l r created now outcome).get? i
          = some (Action.updateFailed cid) ∧
        ∃ code detail, (compareTrace cid l r created now outcome).get? j
          = some (Action.raiseError code detail)) ∧
    (∃ code detail, (compare_documents st cid l r created now outcome).2
        = Except.error (code, detail)) ∧
    (compareTrace cid l r created now outcome).countP isEngineCall = 1 := by
  have hrows := compare_comparisons_failed st cid l r created now outcome hfail
  refine ⟨?_, ?_, ?_, ?_, ?_⟩
  · rw [hrows]
    refine ⟨{ procRow cid l r created with status := "failed" }, ?_, rfl, rfl, rfl, rfl⟩
    have hmem : procRow cid l r created ∈ st.comparisons ++ [procRow cid l r created] :=
      List.mem_append_right _ (List.mem_singleton.mpr rfl)
    have himg := List.mem_map_of_mem
      (fun x => if x.id = cid then { x with status := "failed" } else x) hmem
    have hf : (fun x => if x.id = cid then { x with status := "failed" } else x)
        (procRow cid l r created) = { procRow cid l r created with status := "failed" } := by
      simp [procRow]
    rw [hf] at himg
    exact himg
  · rw [hrows]
    intro c hc hid
    rcases mem_map_update_elim hc with ⟨x, hx, hne, hcx⟩ | ⟨x, hx, hxid, hcx⟩
    · rw [hcx] at hid
      exact absurd hid hne
    · rcases List.mem_append.mp hx with hx' | hx'
      · exact absurd hxid (hfresh x hx')
      · have hxp : x = procRow cid l r created := List.mem_singleton.mp hx'
        rw [hcx, hxp]
        exact ⟨rfl, rfl, rfl⟩
  · cases outcome with
    | ok res => exact absurd hfail (by simp [EngineOutcome.isOk])
    | non200 code text => exact ⟨2, 3, by omega, rfl, 500,
        "Comparison error: 500: Comparison failed: " ++ text, rfl⟩
    | timeout => exact ⟨2, 3, by omega, rfl, 500,
        "Comparison timed out after 5 minutes", rfl⟩
    | connectError => exact ⟨2, 3, by omega, rfl, 500,
        "Cannot connect to comparison service. Is rust-comparator running?", rfl⟩
    | otherError msg => exact ⟨2, 3, by omega, rfl, 500,
        "Comparison error: " ++ msg, rfl⟩
  · cases outcome with
    | ok res => exact absurd hfail (by simp [EngineOutcome.isOk])
    | non200 code text => exact ⟨500, _, rfl⟩
    | timeout => exact ⟨500, _, rfl⟩
    | connectError => exact ⟨500, _, rfl⟩
    | otherError msg => exact ⟨500, _, rfl⟩
  · cases outcome with
    | ok res => exact absurd hfail (by simp [EngineOutcome.isOk])
    | non200 code text => rfl
    | timeout => rfl
    | connectError => rfl
    | otherError msg => rfl

/-- The inserted row's image under an id-keyed UPDATE is in the updated
    table. -/
lemma mem_map_update_self (st : GatewayState) (cid l r : String) (created : Nat)
    (f : ComparisonRow → ComparisonRow) :
    f (procRow cid l r created)
      ∈ (st.comparisons ++ [procRow cid l r created]).map
          (fun x => if x.id = cid then f x else x) := by
  have hmem : procRow cid l r created ∈ st.comparisons ++ [procRow cid l r created] :=
    List.mem_append_right _ (List.mem_singleton.mpr rfl)
  have himg := List.mem_map_of_mem (fun x => if x.id = cid then f x else x) hmem
  have hf : (fun x => if x.id = cid then f x else x) (procRow cid l r created)
      = f (procRow cid l r created) := by
    simp [procRow]
  rw [hf] at himg
  exact himg

/-- Witness for `compare_documents_failure_path`: a timeout against an
    empty store. -/
theorem compare_documents_failure_path_witness :
    (EngineOutcome.timeout.isOk = false ∧
     ∀ c ∈ gw0.comparisons, ¬ c.id = "c-1") ∧
    ((∃ c ∈ (compare_documents gw0 "c-1" "A" "B" 1 2 EngineOutcome.timeout).1.comparisons,
        c.id = "c-1" ∧ c.status = "failed" ∧ c.result = none ∧ c.completed_at = none) ∧
    (∀ c ∈ (compare_documents gw0 "c-1" "A" "B" 1 2 EngineOutcome.timeout).1.comparisons,
        c.id = "c-1" → c.status = "failed" ∧ c.result = none ∧ c.completed_at = none) ∧
    (∃ i j, i < j ∧
        (compareTrace "c-1" "A" "B" 1 2 EngineOutcome.timeout).get? i
          = some (Action.updateFailed "c-1") ∧
        ∃ code detail, (compareTrace "c-1" "A" "B" 1 2 EngineOutcome.timeout).get? j
          = some (Action.raiseError code detail)) ∧
    (∃ code detail, (compare_documents gw0 "c-1" "A" "B" 1 2 EngineOutcome.timeout).2
        = Except.error (code, detail)) ∧
    (compareTrace "c-1" "A" "B" 1 2 EngineOutcome.timeout).countP isEngineCall = 1) :=
  ⟨⟨rfl, by decide⟩,
   compare_documents_failure_path gw0 "c-1" "A" "B" 1 2 EngineOutcome.timeout
     rfl (by decide)⟩

/-! ## C3 — compare success path -/

/-- C3: on a 200 engine response the comparison row is persisted with
    status `completed`, `result` equal to the engine's response object and
    `completed_at` set, and the very same result object is returned to the
    caller. -/
theorem compare_documents_success_path (st : GatewayState) (cid l r : String)
    (created now : Nat) (res : EngineResult)
    (hfresh : ∀ c ∈ st.comparisons, ¬ c.id = cid) :
    (∃ c ∈ (compare_documents st cid l r created now (EngineOutcome.ok res)).1.comparisons,
        c.id = cid ∧ c.status = "completed" ∧ c.result = some res ∧
        c.completed_at = some now) ∧
    (∀ c ∈ (compare_documents st cid l r created now (EngineOutcome.ok res)).1.comparisons,
        c.id = cid → c.status = "completed" ∧ c.result = some res ∧
        c.completed_at = some now) ∧
    (compare_documents st cid l r created now (EngineOutcome.ok res)).2
      = Except.ok res := by
  have hrows := compare_comparisons_completed st cid l r created now res
  refine ⟨?_, ?_, rfl⟩
  · rw [hrows]
    exact ⟨{ procRow cid l r created with
              status := "completed", result := some res, completed_at := some now },
           mem_map_update_self st cid l r created _, rfl, rfl, rfl, rfl⟩
  · rw [hrows]
    intro c hc hid
    rcases mem_map_update_elim hc with ⟨x, hx, hne, hcx⟩ | ⟨x, hx, hxid, hcx⟩
    · rw [hcx] at hid
      exact absurd hid hne
    · rcases List.mem_append.mp hx with hx' | hx'
      · exact absurd hxid (hfresh x hx')
      · have hxp : x = procRow cid l r created := List.mem_singleton.mp hx'
        rw [hcx, hxp]
        exact ⟨rfl, rfl, rfl⟩

/-- A concrete engine result with one exact match. -/
def res0 : EngineResult :=
  { «matches» := [{ left_text := "x", right_text := "y",
                    match_type := "exact", similarity_score := 1 }],
    compliant_count := 1, non_compliant_count := 0,
    compliant_percentage := 100, non_compliant_percentage := 0 }

/-- Witness for `compare_documents_success_path` at a concrete 200
    response. -/
theorem compare_documents_success_path_witness :
    (∀ c ∈ gw0.comparisons, ¬ c.id = "c-2") ∧
    ((∃ c ∈ (compare_documents gw0 "c-2" "A" "B" 1 2 (EngineOutcome.ok res0)).1.comparisons,
        c.id = "c-2" ∧ c.status = "completed" ∧ c.result = some res0 ∧
        c.completed_at = some 2) ∧
    (∀ c ∈ (compare_documents gw0 "c-2" "A" "B" 1 2 (EngineOutcome.ok res0)).1.comparisons,
        c.id = "c-2" → c.status = "completed" ∧ c.result = some res0 ∧
        c.completed_at = some 2) ∧
    (compare_documents gw0 "c-2" "A" "B" 1 2 (EngineOutcome.ok res0)).2
      = Except.ok res0) :=
  ⟨by decide,
   compare_documents_success_path gw0 "c-2" "A" "B" 1 2 res0 (by decide)⟩

/-! ## C10 — compare never checks document existence -/

/-- C10: for arbitrary identifiers — whether or not any document row
    carries them — `compare_documents` inserts a `processing` comparison
    row referencing them and invokes the engine; no lookup of the
    documents table occurs and the caller never receives a not-found
    error: every error outcome carries HTTP status 500. -/
theorem compare_documents_no_doc_check (st : GatewayState) (cid l r : String)
    (created now : Nat) (outcome : EngineOutcome) :
    Action.insertComparison (procRow cid l r created)
      ∈ compareTrace cid l r created now outcome ∧
    Action.engineCall l r ∈ compareTrace cid l r created now outcome ∧
    (∃ c ∈ (compare_documents st cid l r created now outcome).1.comparisons,
        c.id = cid ∧ c.left_doc_id = l ∧ c.right_doc_id = r) ∧
    (∀ code detail,
        (compare_documents st cid l r created now outcome).2
            = Except.error (code, detail) → code = 500) := by
  refine ⟨?_, ?_, ?_, ?_⟩
  · cases outcome <;>
      exact List.mem_append_left _ (List.mem_cons_self _ _)
  · cases outcome <;>
      exact List.mem_append_left _ (List.mem_cons_of_mem _ (List.mem_cons_self _ _))
  · cases outcome with
    | ok res =>
        rw [compare_comparisons_completed]
        exact ⟨_, mem_map_update_self st cid l r created _, rfl, rfl, rfl⟩
    | non200 code text =>
        rw [compare_comparisons_failed st cid l r created now _ (by rfl)]
        exact ⟨_, mem_map_update_self st cid l r created _, rfl, rfl, rfl⟩
    | timeout =>
        rw [compare_comparisons_failed st cid l r created now _ (by rfl)]
        exact ⟨_, mem_map_update_self st cid l r created _, rfl, rfl, rfl⟩
    | connectError =>
        rw [compare_comparisons_failed st cid l r created now _ (by rfl)]
        exact ⟨_, mem_map_update_self st cid l r created _, rfl, rfl, rfl⟩
    | otherError msg =>
        rw [compare_comparisons_failed st cid l r created now _ (by rfl)]
        exact ⟨_, mem_map_update_self st cid l r created _, rfl, rfl, rfl⟩
  · intro code detail h
    cases outcome with
    | ok res => exact Except.noConfusion h
    | non200 code2 text =>
        have h2 := Except.error.inj h
        exact (congrArg Prod.fst h2).symm
    | timeout =>
        have h2 := Except.error.inj h
        exact (congrArg Prod.fst h2).symm
    | connectError =>
        have h2 := Except.error.inj h
        exact (congrArg Prod.fst h2).symm
    | otherError msg =>
        have h2 := Except.error.inj h
        exact (congrArg Prod.fst h2).symm

/-! ## C4 — terminal comparisons are immutable -/

/-- Uploads never touch the comparisons table. -/
lemma upload_document_comparisons (hash : List Nat → String)
    (parsePdf : List Nat → Option Nat) (st : GatewayState)
    (freshId : String) (now : Nat) (filename : String) (content : List Nat) :
    (upload_document hash parsePdf st freshId now filename content).1.comparisons
      = st.comparisons := by
  cases h : st.documents.find? (fun r => r.sha256 == hash content) with
  | some row => rw [upload_document_found hash parsePdf st freshId now filename content row h]
  | none => rw [upload_document_new hash parsePdf st freshId now filename content h]

/-- The updates of one compare execution preserve every field of a row
    whose id differs from the execution's fresh comparison id — in
    particular its `id`. -/
lemma compare_preserves_other_rows (st : GatewayState) (cid l r : String)
    (created now : Nat) (outcome : EngineOutcome) (c : ComparisonRow)
    (hmem : c ∈ st.comparisons) (hne : ¬ c.id = cid) :
    c ∈ (compare_documents st cid l r created now outcome).1.comparisons := by
  cases hok : outcome.isOk with
  | true =>
      cases outcome with
      | ok res =>
          rw [compare_comparisons_completed]
          exact mem_map_update_of_ne (List.mem_append_left _ hmem) hne _
      | non200 code text => exact Bool.noConfusion hok
      | timeout => exact Bool.noConfusion hok
      | connectError => exact Bool.noConfusion hok
      | otherError msg => exact Bool.noConfusion hok
  | false =>
      rw [compare_comparisons_failed st cid l r created now outcome hok]
      exact mem_map_update_of_ne (List.mem_append_left _ hmem) hne _

/-- Every row the state holds after one compare execution is the image of
    a previous row under an id-preserving update, or the freshly inserted
    row with the fresh id. -/
lemma compare_row_origin (st : GatewayState) (cid l r : String)
    (created now : Nat) (outcome : EngineOutcome) (c : ComparisonRow)
    (hc : c ∈ (compare_documents st cid l r created now outcome).1.comparisons) :
    (∃ x ∈ st.comparisons, c = x) ∨ c.id = cid := by
  have key : ∀ (f : ComparisonRow → ComparisonRow),
      (∀ x, (f x).id = x.id) →
      c ∈ (st.comparisons ++ [procRow cid l r created]).map
          (fun x => if x.id = cid then f x else x) →
      (∃ x ∈ st.comparisons, c = x) ∨ c.id = cid := by
    intro f hfid hmem
    rcases mem_map_update_elim hmem with ⟨x, hx, hne, hcx⟩ | ⟨x, hx, hxid, hcx⟩
    · rcases List.mem_append.mp hx with hx' | hx'
      · exact Or.inl ⟨x, hx', hcx⟩
      · have hxp : x = procRow cid l r created := List.mem_singleton.mp hx'
        exact absurd (by rw [hxp]; rfl) hne
    · right
      rw [hcx, hfid x]
      exact hxid
  cases hok : outcome.isOk with
  | true =>
      cases outcome with
      | ok res =>
          rw [compare_comparisons_completed] at hc
          exact key
            (fun x => { x with status := "completed", result := some res, completed_at := some now })
            (fun x => rfl) hc
      | non200 code text => exact Bool.noConfusion hok
      | timeout => exact Bool.noConfusion hok
      | connectError => exact Bool.noConfusion hok
      | otherError msg => exact Bool.noConfusion hok
  | false =>
      rw [compare_comparisons_failed st cid l r created now outcome hok] at hc
      exact key (fun x => { x with status := "failed" }) (fun x => rfl) hc

/-- One endpoint invocation with a fresh comparison id keeps a stored row
    present and keeps its id the unique one carrying its fields. -/
lemma applyOp_preserves_row (hash : List Nat → String)
    (parsePdf : List Nat → Option Nat) (st : GatewayState) (op : Op)
    (c : ComparisonRow) (hfresh : opFresh st op = true)
    (hmem : c ∈ st.comparisons)
    (huniq : ∀ x ∈ st.comparisons, x.id = c.id → x = c) :
    c ∈ (applyOp hash parsePdf st op).comparisons ∧
    (∀ x ∈ (applyOp hash parsePdf st op).comparisons, x.id = c.id → x = c) := by
  cases op with
  | upload freshId now filename content =>
      constructor
      · rw [applyOp, upload_document_comparisons]
        exact hmem
      · rw [applyOp, upload_document_comparisons]
        exact huniq
  | compare cid l r created now outcome =>
      have hne : ¬ c.id = cid := by
        have := List.all_eq_true.mp hfresh c hmem
        intro heq
        rw [heq] at this
        simp at this
      constructor
      · exact compare_preserves_other_rows st cid l r created now outcome c hmem hne
      · intro x hx hxid
        rcases compare_row_origin st cid l r created now outcome x hx with ⟨y, hy, hxy⟩ | hxc
        · rw [hxy]
          exact huniq y hy (by rw [← hxy]; exact hxid)
        · rw [hxid] at hxc
          exact absurd hxc hne
  | getComparison i => exact ⟨hmem, huniq⟩
  | getReport i => exact ⟨hmem, huniq⟩
  | listDocuments => exact ⟨hmem, huniq⟩
  | health => exact ⟨hmem, huniq⟩

/-- C4: a comparison row whose status is terminal (`completed` or
    `failed`) is never changed by any later sequence of endpoint
    invocations — the row survives verbatim, and no row with its id ever
    carries different fields.  Moreover a timeout execution's trace
    contains no completed-update at all: the engine's late reply is
    abandoned with the `httpx` call, never applied. -/
theorem comparison_terminal_immutable (hash : List Nat → String)
    (parsePdf : List Nat → Option Nat) (st : GatewayState)
    (c : ComparisonRow) (ops : List Op)
    (hterm : c.status = "completed" ∨ c.status = "failed")
    (hmem : c ∈ st.comparisons)
    (huniq : ∀ x ∈ st.comparisons, x.id = c.id → x = c)
    (hfresh : freshCids hash parsePdf st ops = true) :
    (c ∈ (applyOps hash parsePdf st ops).comparisons ∧
     ∀ x ∈ (applyOps hash parsePdf st ops).comparisons, x.id = c.id → x = c) ∧
    (∀ cid l r created now res t,
        ¬ Action.updateCompleted cid res t
            ∈ compareTrace cid l r created now EngineOutcome.timeout) := by
  constructor
  · induction ops generalizing st with
    | nil => exact ⟨hmem, huniq⟩
    | cons op rest ih =>
        have hsplit := Bool.and_eq_true _ _ |>.mp (by
          rw [freshCids] at hfresh
          exact hfresh)
        have hstep := applyOp_preserves_row hash parsePdf st op c
          hsplit.1 hmem huniq
        have := ih (applyOp hash parsePdf st op) hstep.1 hstep.2 hsplit.2
        rw [applyOps] at this ⊢
        exact this
  · intro cid l r created now res t hmem2
    rcases List.mem_append.mp hmem2 with h2 | h2
    · rcases List.mem_cons.mp h2 with h3 | h3
      · exact Action.noConfusion h3
      · rcases List.mem_cons.mp h3 with h4 | h4
        · exact Action.noConfusion h4
        · exact absurd h4 (List.not_mem_nil _)
    · rcases List.mem_cons.mp h2 with h3 | h3
      · exact Action.noConfusion h3
      · rcases List.mem_cons.mp h3 with h4 | h4
        · exact Action.noConfusion h4
        · exact absurd h4 (List.not_mem_nil _)

/-- A terminal (completed) comparison row used by the C4 witness. -/
def compRow0 : ComparisonRow :=
  { id := "c-0", left_doc_id := "A", right_doc_id := "B",
    status := "completed", result := some res0,
    created_at := 1, completed_at := some 2 }

/-- A gateway store holding the terminal row `compRow0`. -/
def gwC : GatewayState :=
  { documents := [], comparisons := [compRow0], blobs := [], events := [] }

/-- Later operations run against `gwC` by the C4 witness. -/
def opsC : List Op :=
  [Op.compare "c-9" "A" "B" 3 4 EngineOutcome.timeout,
   Op.upload "id-7" 5 "f.pdf" [1]]

/-- Witness for `comparison_terminal_immutable`: a completed row survives
    a later timed-out compare and an upload. -/
theorem comparison_terminal_immutable_witness :
    ((compRow0.status = "completed" ∨ compRow0.status = "failed") ∧
     compRow0 ∈ gwC.comparisons ∧
     (∀ x ∈ gwC.comparisons, x.id = compRow0.id → x = compRow0) ∧
     freshCids hashC parseC gwC opsC = true) ∧
    ((compRow0 ∈ (applyOps hashC parseC gwC opsC).comparisons ∧
      ∀ x ∈ (applyOps hashC parseC gwC opsC).comparisons,
        x.id = compRow0.id → x = compRow0) ∧
     (∀ cid l r created now res t,
        ¬ Action.updateCompleted cid res t
            ∈ compareTrace cid l r created now EngineOutcome.timeout)) :=
  ⟨⟨by decide, by decide, by decide, by decide⟩,
   comparison_terminal_immutable hashC parseC gwC compRow0 opsC
     (by decide) (by decide) (by decide) (by decide)⟩

/-! ## C6 — the creation race -/

/-- Branch equation: the dedup SELECT finds a stored row. -/
lemma ingestStep_start_found (hash : List Nat → String)
    (parsePdf : List Nat → Option Nat) (p : CallerParams) (gs : GatewayState)
    (row : DocumentRow)
    (hf : gs.documents.find? (fun r => r.sha256 == hash p.content) = some row) :
    ingestStep hash parsePdf p gs CallerPC.start
      = (gs, CallerPC.doneOk (responseOfRow row)) := by
  unfold ingestStep
  rw [hf]

/-- Branch equation: the dedup SELECT finds nothing. -/
lemma ingestStep_start_none (hash : List Nat → String)
    (parsePdf : List Nat → Option Nat) (p : CallerParams) (gs : GatewayState)
    (hf : gs.documents.find? (fun r => r.sha256 == hash p.content) = none) :
    ingestStep hash parsePdf p gs CallerPC.start = (gs, CallerPC.create) := by
  unfold ingestStep
  rw [hf]

/-- Branch equation: the INSERT hits the `UNIQUE(sha256)` constraint. -/
lemma ingestStep_insert_dup (hash : List Nat → String)
    (parsePdf : List Nat → Option Nat) (p : CallerParams) (gs : GatewayState)
    (hdup : gs.documents.any (fun r => r.sha256 == hash p.content) = true) :
    ingestStep hash parsePdf p gs CallerPC.inserting
      = (gs, CallerPC.doneErr
          "Upload failed: duplicate key value violates unique constraint") := by
  unfold ingestStep
  rw [hdup]
  rfl

/-- Branch equation: the INSERT succeeds and the event is published. -/
lemma ingestStep_insert_new (hash : List Nat → String)
    (parsePdf : List Nat → Option Nat) (p : CallerParams) (gs : GatewayState)
    (hdup : gs.documents.any (fun r => r.sha256 == hash p.content) = false) :
    ingestStep hash parsePdf p gs CallerPC.inserting
      = ({ gs with
            documents := gs.documents ++
              [{ id := p.freshId, sha256 := hash p.content, filename := p.filename,
                 size := p.content.length,
                 page_count := get_pdf_page_count parsePdf p.content,
                 created_at := p.now, status := "processing" }]
            events := gs.events ++
              [{ doc_id := p.freshId,
                 s3_uri := "s3://documents/pdfs/" ++ hash p.content ++ ".pdf",
                 sha256 := hash p.content }] },
         CallerPC.doneOk { doc_id := p.freshId, filename := p.filename,
                           size := p.content.length, sha256 := hash p.content,
                           page_count := get_pdf_page_count parsePdf p.content,
                           status := "processing", created_at := p.now }) := by
  unfold ingestStep
  rw [hdup]
  rfl

/-- What an in-flight caller's program counter asserts about the shared
    store: a caller that returned a response named a stored row with the
    content hash; a caller that errored saw a stored row with the hash at
    its INSERT. -/
def pcOK (gs : GatewayState) (h : String) : CallerPC → Prop
  | .start => True
  | .create => True
  | .inserting => True
  | .doneOk r => ∃ row ∈ gs.documents, row.sha256 = h ∧ row.id = r.doc_id
  | .doneErr _ => 1 ≤ countDocs gs h

/-- The race invariant for content hash `h`: at most one stored row and no
    more events than rows carry `h`, and both callers' program counters
    are consistent with the store. -/
def raceInv (h : String) (s : TwoState) : Prop :=
  countDocs s.gs h ≤ 1 ∧ countEvents s.gs h ≤ countDocs s.gs h ∧
  pcOK s.gs h s.pcA ∧ pcOK s.gs h s.pcB

/-- `pcOK` is monotone under growing the document table. -/
lemma pcOK_mono (gs gs2 : GatewayState) (h : String)
    (hsub : ∀ row ∈ gs.documents, row ∈ gs2.documents)
    (hcnt : countDocs gs h ≤ countDocs gs2 h) (pc : CallerPC)
    (hpc : pcOK gs h pc) : pcOK gs2 h pc := by
  cases pc with
  | start => trivial
  | create => trivial
  | inserting => trivial
  | doneOk r =>
      rcases hpc with ⟨row, hrow, hsha, hid⟩
      exact ⟨row, hsub row hrow, hsha, hid⟩
  | doneErr e => exact le_trans hpc hcnt

/-- One step of one caller preserves its own `pcOK`, the count bounds, and
    grows the table monotonically. -/
lemma ingestStep_preserves (hash : List Nat → String)
    (parsePdf : List Nat → Option Nat) (p : CallerParams) (h : String)
    (hp : hash p.content = h) (gs : GatewayState) (pc : CallerPC)
    (hd : countDocs gs h ≤ 1) (he : countEvents gs h ≤ countDocs gs h)
    (hpc : pcOK gs h pc) :
    countDocs (ingestStep hash parsePdf p gs pc).1 h ≤ 1 ∧
    countEvents (ingestStep hash parsePdf p gs pc).1 h
      ≤ countDocs (ingestStep hash parsePdf p gs pc).1 h ∧
    pcOK (ingestStep hash parsePdf p gs pc).1 h (ingestStep hash parsePdf p gs pc).2 ∧
    (∀ row ∈ gs.documents, row ∈ (ingestStep hash parsePdf p gs pc).1.documents) ∧
    countDocs gs h ≤ countDocs (ingestStep hash parsePdf p gs pc).1 h := by
  cases pc with
  | start =>
      cases hf : gs.documents.find? (fun r => r.sha256 == hash p.content) with
      | some row =>
          rw [ingestStep_start_found hash parsePdf p gs row hf]
          refine ⟨hd, he, ⟨row, List.mem_of_find?_eq_some hf, ?_, rfl⟩,
            fun r hr => hr, le_refl _⟩
          have := List.find?_some hf
          rw [← hp]
          simpa using this
      | none =>
          rw [ingestStep_start_none hash parsePdf p gs hf]
          exact ⟨hd, he, trivial, fun r hr => hr, le_refl _⟩
  | create =>
      exact ⟨hd, he, trivial, fun r hr => hr, le_refl _⟩
  | inserting =>
      cases hdup : gs.documents.any (fun r => r.sha256 == hash p.content) with
      | true =>
          rw [ingestStep_insert_dup hash parsePdf p gs hdup]
          rcases List.any_eq_true.mp hdup with ⟨x, hx, hxsha⟩
          have hpos : 1 ≤ countDocs gs h := by
            apply List.countP_pos_iff.mpr
            refine ⟨x, hx, ?_⟩
            rw [← hp]
            simpa using hxsha
          exact ⟨hd, he, hpos, fun r hr => hr, le_refl _⟩
      | false =>
          rw [ingestStep_insert_new hash parsePdf p gs hdup]
          have hzero : countDocs gs h = 0 := by
            apply List.countP_eq_zero.mpr
            intro x hx hxsha
            have : gs.documents.any (fun r => r.sha256 == hash p.content) = true := by
              apply List.any_eq_true.mpr
              refine ⟨x, hx, ?_⟩
              rw [hp]
              simpa using hxsha
            rw [hdup] at this
            exact Bool.noConfusion this
          have hez : countEvents gs h = 0 := by omega
          constructor
          · simp only [countDocs, List.countP_append]
            rw [show gs.documents.countP (fun r => r.sha256 == h) = 0 from hzero]
            simp [hp]
          constructor
          · simp only [countDocs, countEvents, List.countP_append]
            rw [show gs.events.countP (fun e => e.sha256 == h) = 0 from hez,
                show gs.documents.countP (fun r => r.sha256 == h) = 0 from hzero]
            simp [hp]
          constructor
          · refine ⟨{ id := p.freshId, sha256 := hash p.content, filename := p.filename,
                      size := p.content.length,
                      page_count := get_pdf_page_count parsePdf p.content,
                      created_at := p.now, status := "processing" },
                    List.mem_append_right _ (List.mem_singleton.mpr rfl), hp, rfl⟩
          constructor
          · intro r hr
            exact List.mem_append_left _ hr
          · simp only [countDocs, List.countP_append]
            omega
  | doneOk r => exact ⟨hd, he, hpc, fun x hx => hx, le_refl _⟩
  | doneErr e => exact ⟨hd, he, hpc, fun x hx => hx, le_refl _⟩

/-- One scheduler step preserves the race invariant. -/
lemma sysStep_preserves (hash : List Nat → String)
    (parsePdf : List Nat → Option Nat) (pA pB : CallerParams) (h : String)
    (hpa : hash pA.content = h) (hpb : hash pB.content = h)
    (s : TwoState) (hinv : raceInv h s) (who : Bool) :
    raceInv h (sysStep hash parsePdf pA pB s who) := by
  rcases hinv with ⟨hd, he, hA, hB⟩
  cases who with
  | true =>
      have hs := ingestStep_preserves hash parsePdf pA h hpa s.gs s.pcA hd he hA
      exact ⟨hs.1, hs.2.1, hs.2.2.1,
        pcOK_mono s.gs _ h hs.2.2.2.1 hs.2.2.2.2 s.pcB hB⟩
  | false =>
      have hs := ingestStep_preserves hash parsePdf pB h hpb s.gs s.pcB hd he hB
      exact ⟨hs.1, hs.2.1,
        pcOK_mono s.gs _ h hs.2.2.2.1 hs.2.2.2.2 s.pcA hA, hs.2.2.1⟩

/-- The race invariant holds along every interleaving. -/
lemma runSchedule_preserves (hash : List Nat → String)
    (parsePdf : List Nat → Option Nat) (pA pB : CallerParams) (h : String)
    (hpa : hash pA.content = h) (hpb : hash pB.content = h) :
    ∀ (sched : List Bool) (s : TwoState), raceInv h s →
      raceInv h (runSchedule hash parsePdf pA pB s sched) := by
  intro sched
  induction sched with
  | nil => exact fun s hs => hs
  | cons w rest ih =>
      intro s hs
      exact ih _ (sysStep_preserves hash parsePdf pA pB h hpa hpb s hs w)

/-- C6 amended: under the store's `UNIQUE(sha256)` constraint, every
    interleaving of two concurrent uploads of identical bytes ends with at
    most one stored row and at most one event for the content hash; every
    caller that received a response names the single stored row's id (so
    two responding callers agree); and every caller that finished — with a
    response or with the unique-violation server error — finished with
    exactly one row stored.  (The losing caller does NOT re-read the
    winner's record: as the counterexample shows, a caller whose dedup
    check preceded the winner's INSERT ends in the 500 error.) -/
theorem upload_race_converges (hash : List Nat → String)
    (parsePdf : List Nat → Option Nat) (pA pB : CallerParams)
    (gs0 : GatewayState) (sched : List Bool) (s2 : TwoState)
    (hcontent : pB.content = pA.content)
    (hd0 : countDocs gs0 (hash pA.content) = 0)
    (he0 : countEvents gs0 (hash pA.content) = 0)
    (hrun : runSchedule hash parsePdf pA pB
        ⟨gs0, CallerPC.start, CallerPC.start⟩ sched = s2) :
    countDocs s2.gs (hash pA.content) ≤ 1 ∧
    countEvents s2.gs (hash pA.content) ≤ 1 ∧
    (∀ ra rb, s2.pcA = CallerPC.doneOk ra → s2.pcB = CallerPC.doneOk rb →
        ra.doc_id = rb.doc_id) ∧
    (∀ ra, s2.pcA = CallerPC.doneOk ra →
        countDocs s2.gs (hash pA.content) = 1) ∧
    (∀ rb, s2.pcB = CallerPC.doneOk rb →
        countDocs s2.gs (hash pA.content) = 1) ∧
    (∀ e, s2.pcA = CallerPC.doneErr e →
        countDocs s2.gs (hash pA.content) = 1) ∧
    (∀ e, s2.pcB = CallerPC.doneErr e →
        countDocs s2.gs (hash pA.content) = 1) := by
  have hinv0 : raceInv (hash pA.content) ⟨gs0, CallerPC.start, CallerPC.start⟩ := by
    refine ⟨?_, ?_, trivial, trivial⟩
    · show countDocs gs0 (hash pA.content) ≤ 1
      omega
    · show countEvents gs0 (hash pA.content) ≤ countDocs gs0 (hash pA.content)
      omega
  have hinv := runSchedule_preserves hash parsePdf pA pB (hash pA.content)
    rfl (congrArg hash hcontent) sched _ hinv0
  rw [hrun] at hinv
  rcases hinv with ⟨hd, he, hA, hB⟩
  have hok_count : ∀ (pc : CallerPC), pcOK s2.gs (hash pA.content) pc →
      ∀ r2, pc = CallerPC.doneOk r2 → countDocs s2.gs (hash pA.content) = 1 := by
    intro pc hpc r2 hpceq
    rw [hpceq] at hpc
    rcases hpc with ⟨row, hrow, hsha, _⟩
    have : 1 ≤ countDocs s2.gs (hash pA.content) :=
      List.countP_pos_iff.mpr ⟨row, hrow, by simp [hsha]⟩
    omega
  have herr_count : ∀ (pc : CallerPC), pcOK s2.gs (hash pA.content) pc →
      ∀ e, pc = CallerPC.doneErr e → countDocs s2.gs (hash pA.content) = 1 := by
    intro pc hpc e hpceq
    rw [hpceq] at hpc
    have : 1 ≤ countDocs s2.gs (hash pA.content) := hpc
    omega
  refine ⟨hd, le_trans he hd, ?_, fun ra hra => hok_count s2.pcA hA ra hra,
    fun rb hrb => hok_count s2.pcB hB rb hrb,
    fun e hea => herr_count s2.pcA hA e hea,
    fun e heb => herr_count s2.pcB hB e heb⟩
  intro ra rb hra hrb
  rw [hra] at hA
  rw [hrb] at hB
  rcases hA with ⟨rowa, hrowa, hshaa, hida⟩
  rcases hB with ⟨rowb, hrowb, hshab, hidb⟩
  have : rowa = rowb := by
    apply countP_le_one_unique (fun r => r.sha256 == hash pA.content)
      s2.gs.documents
      (show s2.gs.documents.countP (fun r => r.sha256 == hash pA.content) ≤ 1 from hd)
      rowa hrowa rowb hrowb
    · simp [hshaa]
    · simp [hshab]
  rw [← hida, ← hidb, this]

/-- Caller A of the concrete race. -/
def pAr : CallerParams :=
  { content := [1, 2, 3], freshId := "id-A", filename := "a.pdf", now := 1 }

/-- Caller B of the concrete race: identical bytes, its own id draw. -/
def pBr : CallerParams :=
  { content := [1, 2, 3], freshId := "id-B", filename := "b.pdf", now := 2 }

/-- The interleaving in which both dedup checks run before either
    INSERT. -/
def racedSched : List Bool := [true, false, true, true, false, false]

/-- C6 counterexample: in the interleaving `racedSched` the losing caller
    does not detect the conflict and re-read the winner's record — its
    INSERT hits the unique constraint and it ends in the generic
    `Upload failed` 500, while only the winner gets a response. -/
theorem upload_race_loser_gets_error_cex :
    (runSchedule hashC parseC pAr pBr
        ⟨gw0, CallerPC.start, CallerPC.start⟩ racedSched).pcB
      = CallerPC.doneErr
          "Upload failed: duplicate key value violates unique constraint" ∧
    (runSchedule hashC parseC pAr pBr
        ⟨gw0, CallerPC.start, CallerPC.start⟩ racedSched).pcA
      = CallerPC.doneOk { doc_id := "id-A", filename := "a.pdf", size := 3,
                          sha256 := "h256", page_count := 3,
                          status := "processing", created_at := 1 } ∧
    ¬ ∃ rb, (runSchedule hashC parseC pAr pBr
        ⟨gw0, CallerPC.start, CallerPC.start⟩ racedSched).pcB
      = CallerPC.doneOk rb := by
  have h1 : (runSchedule hashC parseC pAr pBr
      ⟨gw0, CallerPC.start, CallerPC.start⟩ racedSched).pcB
      = CallerPC.doneErr
          "Upload failed: duplicate key value violates unique constraint" := by
    decide
  refine ⟨h1, by decide, ?_⟩
  rintro ⟨rb, hb⟩
  rw [h1] at hb
  exact CallerPC.noConfusion hb

/-- Witness for `upload_race_converges` at the concrete raced
    interleaving. -/
theorem upload_race_converges_witness :
    (pBr.content = pAr.content ∧
     countDocs gw0 (hashC pAr.content) = 0 ∧
     countEvents gw0 (hashC pAr.content) = 0 ∧
     runSchedule hashC parseC pAr pBr
        ⟨gw0, CallerPC.start, CallerPC.start⟩ racedSched
       = runSchedule hashC parseC pAr pBr
        ⟨gw0, CallerPC.start, CallerPC.start⟩ racedSched) ∧
    (countDocs (runSchedule hashC parseC pAr pBr
        ⟨gw0, CallerPC.start, CallerPC.start⟩ racedSched).gs (hashC pAr.content) ≤ 1 ∧
     countEvents (runSchedule hashC parseC pAr pBr
        ⟨gw0, CallerPC.start, CallerPC.start⟩ racedSched).gs (hashC pAr.content) ≤ 1 ∧
     (∀ ra rb, (runSchedule hashC parseC pAr pBr
        ⟨gw0, CallerPC.start, CallerPC.start⟩ racedSched).pcA = CallerPC.doneOk ra →
        (runSchedule hashC parseC pAr pBr
        ⟨gw0, CallerPC.start, CallerPC.start⟩ racedSched).pcB = CallerPC.doneOk rb →
        ra.doc_id = rb.doc_id) ∧
     (∀ ra, (runSchedule hashC parseC pAr pBr
        ⟨gw0, CallerPC.start, CallerPC.start⟩ racedSched).pcA = CallerPC.doneOk ra →
        countDocs (runSchedule hashC parseC pAr pBr
        ⟨gw0, CallerPC.start, CallerPC.start⟩ racedSched).gs (hashC pAr.content) = 1) ∧
     (∀ rb, (runSchedule hashC parseC pAr pBr
        ⟨gw0, CallerPC.start, CallerPC.start⟩ racedSched).pcB = CallerPC.doneOk rb →
        countDocs (runSchedule hashC parseC pAr pBr
        ⟨gw0, CallerPC.start, CallerPC.start⟩ racedSched).gs (hashC pAr.content) = 1) ∧
     (∀ e, (runSchedule hashC parseC pAr pBr
        ⟨gw0, CallerPC.start, CallerPC.start⟩ racedSched).pcA = CallerPC.doneErr e →
        countDocs (runSchedule hashC parseC pAr pBr
        ⟨gw0, CallerPC.start, CallerPC.start⟩ racedSched).gs (hashC pAr.content) = 1) ∧
     (∀ e, (runSchedule hashC parseC pAr pBr
        ⟨gw0, CallerPC.start, CallerPC.start⟩ racedSched).pcB = CallerPC.doneErr e →
        countDocs (runSchedule hashC parseC pAr pBr
        ⟨gw0, CallerPC.start, CallerPC.start⟩ racedSched).gs (hashC pAr.content) = 1)) :=
  ⟨⟨by decide, by decide, by decide, rfl⟩,
   upload_race_converges hashC parseC pAr pBr gw0 racedSched
     (runSchedule hashC parseC pAr pBr
        ⟨gw0, CallerPC.start, CallerPC.start⟩ racedSched)
     (by decide) (by decide) (by decide) rfl⟩

end CompareDocs
